import Mathlib

/-!
# Observer pattern (`dp/src/observer/observer.h`)

A shallow embedding of the single header of the repository.

* An `IObserver*` is an address (`IObserverPtr`); two pointers are equal exactly
  when they are the same address (reference identity).
* The objects behind the addresses live in a `Memory`; `Memory.new` is the
  `new` expression.  The memory is total: object lifetimes are not tracked, so
  dereferencing a dangling pointer (undefined behaviour in C++) is outside the
  model.
* `std::cout` is the text written so far; `<< endl` writes a newline character
  (the flush is not modelled).
* `IObserver::update` is pure virtual, so `ISubject::notify_observer` is
  embedded over an arbitrary `update : IObserverPtr → String → σ → σ`, where
  `σ` is whatever the observers act on.  The subject is not part of `σ`:
  an `update` that registers or deregisters during a broadcast invalidates the
  iterators of the range-for loop and has no defined behaviour to embed.
-/

namespace ObserverDP

/-! ## Observers -/

/-- An `IObserver*`: the address of an observer object. -/
abbrev IObserverPtr := Nat

/-- The objects an `IObserver*` can point to: the two concrete classes, each with
the inherited field `observer_name` set by its constructor. -/
inductive IObserver where
  | Observer1 (observer_name : String)
  | Observer2 (observer_name : String)
  deriving DecidableEq, Repr

/-- The protected field `IObserver::observer_name`. -/
def IObserver.observer_name : IObserver → String
  | .Observer1 name => name
  | .Observer2 name => name

/-- The body of `Observer1::update`:
`cout << observer_name << ": got: " << msg << endl;`. -/
def Observer1.update (observer_name msg cout : String) : String :=
  cout ++ observer_name ++ ": got: " ++ msg ++ "\n"

/-- The body of `Observer2::update`:
`cout << observer_name << ": got: " << msg << endl;`. -/
def Observer2.update (observer_name msg cout : String) : String :=
  cout ++ observer_name ++ ": got: " ++ msg ++ "\n"

/-- The virtual call `observer->update(msg)`, resolved on the dynamic type. -/
def IObserver.update : IObserver → String → String → String
  | .Observer1 name, msg, cout => Observer1.update name msg cout
  | .Observer2 name, msg, cout => Observer2.update name msg cout

/-- The free store: the object at every address and the next unused address. -/
structure Memory where
  heap : IObserverPtr → IObserver
  next : IObserverPtr

/-- The expression `new T(..)`: places the object at a fresh address and returns it. -/
def Memory.new (obj : IObserver) (mem : Memory) : IObserverPtr × Memory :=
  (mem.next, ⟨Function.update mem.heap mem.next obj, mem.next + 1⟩)

/-- The call `p->update(msg)` for a pointer into `mem`. -/
def Memory.update (mem : Memory) (p : IObserverPtr) (msg cout : String) : String :=
  (mem.heap p).update msg cout

/-! ## Subject -/

/-- The class `ISubject`: its only data member is `vector<IObserver*> observers`. -/
structure ISubject where
  observers : List IObserverPtr
  deriving DecidableEq, Repr

/-- A freshly constructed subject (`new Subject1()`): the vector is empty. -/
def Subject1.new : ISubject := ⟨[]⟩

/-- The method `ISubject::_register`: `observers.push_back(observer)`. -/
def ISubject._register (self : ISubject) (observer : IObserverPtr) : ISubject :=
  ⟨self.observers ++ [observer]⟩

/-- The loop of `ISubject::deregister`.  The iterator `itr` is the split of the
vector into the entries before it (`before`) and the entries from it on; at the
end of the vector nothing was erased, at a match `observers.erase(itr)` drops the
entry under the iterator and `break` leaves the loop, otherwise `++itr`. -/
def ISubject.deregister.loop (observer : IObserverPtr) :
    List IObserverPtr → List IObserverPtr → List IObserverPtr
  | before, [] => before
  | before, x :: after =>
    if x = observer then before ++ after
    else ISubject.deregister.loop observer (before ++ [x]) after

/-- The method `ISubject::deregister`: the loop started at `observers.begin()`. -/
def ISubject.deregister (self : ISubject) (observer : IObserverPtr) : ISubject :=
  ⟨ISubject.deregister.loop observer [] self.observers⟩

/-- The range-for loop of `ISubject::notify_observer` over the entries still to
visit: `observer->update(msg)` for each, front to back. -/
def ISubject.notify_observer.loop {σ : Type} (update : IObserverPtr → String → σ → σ)
    (msg : String) : List IObserverPtr → σ → σ
  | [], w => w
  | observer :: rest, w => ISubject.notify_observer.loop update msg rest (update observer msg w)

/-- The method `ISubject::notify_observer`.  It returns the subject as it leaves it
(the body never assigns `observers`) and what the `update` calls did. -/
def ISubject.notify_observer {σ : Type} (update : IObserverPtr → String → σ → σ)
    (self : ISubject) (msg : String) (w : σ) : ISubject × σ :=
  (self, ISubject.notify_observer.loop update msg self.observers w)

/-! ## Demonstration -/

/-- The entry point `ObserverDP::run`, from any memory and any text already on `cout`;
the result is the text on `cout` afterwards. -/
def run (mem : Memory) (cout : String) : String :=
  let (o1, mem) := Memory.new (.Observer1 "observer1") mem
  let (o2, mem) := Memory.new (.Observer1 "observer2") mem
  let subject := Subject1.new
  let subject := subject._register o1
  let subject := subject._register o2
  (subject.notify_observer mem.update "my notification." cout).2

/-! ## Instrumentation used to state the claims -/

/-- An `update` that only records the call: which observer, which message. -/
def recordCall (observer : IObserverPtr) (msg : String)
    (calls : List (IObserverPtr × String)) : List (IObserverPtr × String) :=
  calls ++ [(observer, msg)]

/-- Registering the observers of a list one after the other, first to last. -/
def registerAll (self : ISubject) : List IObserverPtr → ISubject
  | [] => self
  | o :: os => registerAll (self._register o) os

/-- The operations a caller can apply to the observer list of a subject. -/
inductive Op where
  | _register (observer : IObserverPtr)
  | deregister (observer : IObserverPtr)
  deriving DecidableEq, Repr

/-- Applying one operation to a subject. -/
def Op.apply (self : ISubject) : Op → ISubject
  | ._register observer => self._register observer
  | .deregister observer => self.deregister observer

/-- Applying a sequence of operations to a subject, first to last. -/
def applyOps (self : ISubject) : List Op → ISubject
  | [] => self
  | op :: ops => applyOps (op.apply self) ops

/-- The counter the scan of a sequence of operations keeps for the observer `o`,
started at `n`: plus one at each `_register(o)`, minus one at each `deregister(o)`
unless it is already zero; operations on other observers leave it alone. -/
def scanCount (o : IObserverPtr) : List Op → Nat → Nat
  | [], n => n
  | ._register p :: ops, n => scanCount o ops (if p = o then n + 1 else n)
  | .deregister p :: ops, n => scanCount o ops (if p = o then (if n = 0 then 0 else n - 1) else n)

/-- The text of a list of lines on a stream: each line followed by the newline of `endl`. -/
def endlLines : List String → String
  | [] => ""
  | line :: lines => line ++ "\n" ++ endlLines lines

/-! ## Lemmas on the loops -/

theorem deregister_loop_eq_erase (o : IObserverPtr) (l before : List IObserverPtr) :
    ISubject.deregister.loop o before l = before ++ l.erase o := by
  induction l generalizing before with
  | nil => simp [ISubject.deregister.loop]
  | cons x xs ih =>
    by_cases hx : x = o
    · subst hx
      simp [ISubject.deregister.loop]
    · have hb : (x == o) = false := by simpa using hx
      simp [ISubject.deregister.loop, hx, ih, List.erase_cons, hb]

theorem deregister_observers (self : ISubject) (o : IObserverPtr) :
    (self.deregister o).observers = self.observers.erase o := by
  simp [ISubject.deregister, deregister_loop_eq_erase]

theorem notify_loop_recordCall (m : String) (l : List IObserverPtr)
    (calls : List (IObserverPtr × String)) :
    ISubject.notify_observer.loop recordCall m l calls = calls ++ l.map (fun o => (o, m)) := by
  induction l generalizing calls with
  | nil => simp [ISubject.notify_observer.loop]
  | cons x xs ih => simp [ISubject.notify_observer.loop, ih, recordCall]

theorem registerAll_observers (self : ISubject) (os : List IObserverPtr) :
    (registerAll self os).observers = self.observers ++ os := by
  induction os generalizing self with
  | nil => simp [registerAll]
  | cons x xs ih => simp [registerAll, ih, ISubject._register]

theorem filter_calls_eq_replicate (o : IObserverPtr) (m : String) (l : List IObserverPtr) :
    (l.map (fun p => (p, m))).filter (fun c => decide (c.1 = o))
      = List.replicate (l.count o) (o, m) := by
  induction l with
  | nil => simp
  | cons x xs ih =>
    by_cases hx : x = o
    · subst hx
      simp [List.filter_cons, ih, List.replicate_succ]
    · have hb : (x == o) = false := by simpa using hx
      simp [List.filter_cons, hx, ih, List.count_cons, hb]

theorem exists_first_occurrence (l : List IObserverPtr) (o : IObserverPtr) (h : o ∈ l) :
    ∃ before after, l = before ++ o :: after ∧ o ∉ before := by
  induction l with
  | nil => cases h
  | cons x xs ih =>
    by_cases hx : x = o
    · exact ⟨[], xs, by simp [hx], by simp⟩
    · have hmem : o ∈ xs := by
        rcases List.mem_cons.mp h with h1 | h1
        · exact absurd h1.symm hx
        · exact h1
      obtain ⟨b, a, e1, e2⟩ := ih hmem
      refine ⟨x :: b, a, by simp [e1], ?_⟩
      intro hc
      rcases List.mem_cons.mp hc with h1 | h1
      · exact hx h1.symm
      · exact e2 h1

theorem count_apply (o : IObserverPtr) (self : ISubject) (op : Op) :
    (op.apply self).observers.count o = scanCount o [op] (self.observers.count o) := by
  cases op with
  | _register p =>
    by_cases hp : p = o
    · simp [Op.apply, ISubject._register, scanCount, hp]
    · have hb : (p == o) = false := by simpa using hp
      simp [Op.apply, ISubject._register, scanCount, hp, List.count_singleton, hb]
  | deregister p =>
    by_cases hp : p = o
    · subst hp
      by_cases h0 : List.count p self.observers = 0
      · simp [Op.apply, deregister_observers, scanCount, List.count_erase_self, h0]
      · simp [Op.apply, deregister_observers, scanCount, List.count_erase_self, h0]
    · have hne : o ≠ p := fun e => hp e.symm
      simp [Op.apply, deregister_observers, scanCount, hp, List.count_erase_of_ne hne]

theorem count_applyOps (o : IObserverPtr) (ops : List Op) (self : ISubject) :
    (applyOps self ops).observers.count o = scanCount o ops (self.observers.count o) := by
  induction ops generalizing self with
  | nil => simp [applyOps, scanCount]
  | cons op ops ih =>
    rw [applyOps, ih, count_apply]
    cases op <;> simp [scanCount]

theorem scanCount_never_registered (o : IObserverPtr) (ops : List Op)
    (h : Op._register o ∉ ops) : scanCount o ops 0 = 0 := by
  induction ops with
  | nil => simp [scanCount]
  | cons op ops ih =>
    have h1 : Op._register o ≠ op := fun e => h (by simp [e])
    have h2 : Op._register o ∉ ops := fun e => h (List.mem_cons_of_mem _ e)
    cases op with
    | _register p =>
      have hp : p ≠ o := fun e => h1 (by rw [e])
      simp [scanCount, hp, ih h2]
    | deregister p => simp [scanCount, ih h2]

theorem deregister_eq (self : ISubject) (o : IObserverPtr) :
    self.deregister o = ⟨self.observers.erase o⟩ := by
  simp [ISubject.deregister, deregister_loop_eq_erase]

theorem erase_filter_others (o : IObserverPtr) (l : List IObserverPtr) :
    (l.erase o).filter (fun p => decide (p ≠ o)) = l.filter (fun p => decide (p ≠ o)) := by
  induction l with
  | nil => simp
  | cons x xs ih =>
    by_cases hx : x = o
    · subst hx
      simp
    · have hb : (x == o) = false := by simpa using hx
      simpa [List.erase_cons, hb, List.filter_cons, hx] using ih

theorem filter_calls_others (o : IObserverPtr) (m : String) (l : List IObserverPtr) :
    (l.map (fun p => (p, m))).filter (fun c => decide (c.1 ≠ o))
      = (l.filter (fun p => decide (p ≠ o))).map (fun p => (p, m)) := by
  induction l with
  | nil => simp
  | cons x xs ih =>
    by_cases hx : x = o
    · simpa [List.filter_cons, hx] using ih
    · simpa [List.filter_cons, hx] using ih

theorem append_singleton_eq_cons_iff (o : IObserverPtr) (after : List IObserverPtr) :
    after ++ [o] = o :: after ↔ after = List.replicate after.length o := by
  induction after with
  | nil => simp
  | cons x xs ih =>
    constructor
    · intro h
      have hx : x = o := by
        have := List.head_eq_of_cons_eq h
        exact this
      subst hx
      have ht : xs ++ [x] = x :: xs := List.tail_eq_of_cons_eq h
      have := ih.mp ht
      simp only [List.length_cons, List.replicate_succ]
      rw [← this]
    · intro h
      simp only [List.length_cons, List.replicate_succ] at h
      have hx : x = o := List.head_eq_of_cons_eq h
      subst hx
      have ht : xs = List.replicate xs.length x := List.tail_eq_of_cons_eq h
      have := ih.mpr ht
      simp [this]

theorem register_deregister_observers (l : List IObserverPtr) (o : IObserverPtr) :
    (((ISubject.mk l)._register o).deregister o).observers = (l ++ [o]).erase o := by
  simp [deregister_observers, ISubject._register]

/-! ## Claims -/

/-- C1: for every sequence of observers `os` registered with `_register`, one after the
other, on a freshly constructed subject, and every message `m`, the calls that
`notify_observer(m)` makes are exactly `update(m)` on the entries of `os`, first to
last: one call per registration, each with `m`, appended to the calls made before,
and nothing else. -/
theorem C1_notify_calls_each_registered_in_order (os : List IObserverPtr) (m : String)
    (calls : List (IObserverPtr × String)) :
    ((registerAll Subject1.new os).notify_observer recordCall m calls).2
      = calls ++ os.map (fun o => (o, m)) := by
  simp [ISubject.notify_observer, notify_loop_recordCall, registerAll_observers, Subject1.new]

/-- C2: when `o` occurs in the observer list, `deregister(o)` removes exactly the first
occurrence of `o`: the list splits as `before ++ o :: after` with `o` not in `before`,
the result is `before ++ after`, its length is one less, and the later occurrences of
`o` (those in `after`) stay in place. -/
theorem C2_deregister_removes_first_occurrence (l : List IObserverPtr) (o : IObserverPtr)
    (h : o ∈ l) :
    ∃ before after, l = before ++ o :: after ∧ o ∉ before ∧
      (ISubject.deregister ⟨l⟩ o).observers = before ++ after ∧
      (ISubject.deregister ⟨l⟩ o).observers.length + 1 = l.length ∧
      (ISubject.deregister ⟨l⟩ o).observers.count o + 1 = l.count o := by
  obtain ⟨before, after, hl, hnot⟩ := exists_first_occurrence l o h
  refine ⟨before, after, hl, hnot, ?_⟩
  have herase : l.erase o = before ++ after := by
    rw [hl, List.erase_append_right _ hnot]
    simp
  rw [deregister_observers, herase]
  refine ⟨rfl, ?_, ?_⟩
  · simp [hl]; omega
  · simp [hl, List.count_append, List.count_eq_zero_of_not_mem hnot]

/-- Witness of C2: the list `[2, 1, 3, 1]` and the observer `1`, whose first
occurrence is the second entry. -/
theorem C2_deregister_removes_first_occurrence_witness :
    ∃ before after, [2, 1, 3, 1] = before ++ 1 :: after ∧ 1 ∉ before ∧
      (ISubject.deregister ⟨[2, 1, 3, 1]⟩ 1).observers = before ++ after ∧
      (ISubject.deregister ⟨[2, 1, 3, 1]⟩ 1).observers.length + 1 = [2, 1, 3, 1].length ∧
      (ISubject.deregister ⟨[2, 1, 3, 1]⟩ 1).observers.count 1 + 1 = [2, 1, 3, 1].count 1 :=
  C2_deregister_removes_first_occurrence [2, 1, 3, 1] 1 (by decide)

/-- C3: when `o` does not occur in the observer list (the empty list included),
`deregister(o)` returns the subject with exactly the same list; being a total
function, it always completes and has no error result. -/
theorem C3_deregister_absent_is_noop (l : List IObserverPtr) (o : IObserverPtr)
    (h : o ∉ l) :
    ISubject.deregister ⟨l⟩ o = ⟨l⟩ := by
  have := deregister_observers ⟨l⟩ o
  rw [List.erase_of_not_mem h] at this
  cases hd : ISubject.deregister ⟨l⟩ o
  simp [hd] at this
  simp [this]

/-- Witness of C3: the observer `5` is absent from `[2, 1, 3, 1]`. -/
theorem C3_deregister_absent_is_noop_witness :
    5 ∉ [2, 1, 3, 1] ∧ ISubject.deregister ⟨[2, 1, 3, 1]⟩ 5 = ⟨[2, 1, 3, 1]⟩ :=
  ⟨by decide, C3_deregister_absent_is_noop [2, 1, 3, 1] 5 (by decide)⟩

/-- C4: for every observer list `l` and every observer `o`, already in `l` or not,
`_register(o)` yields `l` followed by `o`: the first `l.length` entries are `l`
unchanged, the last entry is `o`, the length grows by one and so does the number of
entries of `o` (no duplicate check). -/
theorem C4_register_appends_last (l : List IObserverPtr) (o : IObserverPtr) :
    (ISubject._register ⟨l⟩ o).observers = l ++ [o] ∧
      (ISubject._register ⟨l⟩ o).observers.take l.length = l ∧
      (ISubject._register ⟨l⟩ o).observers.getLast? = some o ∧
      (ISubject._register ⟨l⟩ o).observers.length = l.length + 1 ∧
      (ISubject._register ⟨l⟩ o).observers.count o = l.count o + 1 := by
  simp [ISubject._register]

/-- C5: the calls `notify_observer(m)` makes to an observer `o` are one `update(m)` per
entry of `o` in the list; so when `o` is not registered and is then registered twice,
every broadcast calls `o.update(m)` exactly twice. -/
theorem C5_registered_twice_is_called_twice (l : List IObserverPtr) (o : IObserverPtr)
    (m : String) (h : o ∉ l) :
    ((((ISubject.mk l)._register o)._register o).notify_observer recordCall m []).2.filter
        (fun c => decide (c.1 = o)) = [(o, m), (o, m)] ∧
      ∀ (l2 : List IObserverPtr) (m2 : String),
        ((ISubject.mk l2).notify_observer recordCall m2 []).2.filter
          (fun c => decide (c.1 = o)) = List.replicate (l2.count o) (o, m2) := by
  have gen : ∀ (l2 : List IObserverPtr) (m2 : String),
      ((ISubject.mk l2).notify_observer recordCall m2 []).2.filter
        (fun c => decide (c.1 = o)) = List.replicate (l2.count o) (o, m2) := by
    intro l2 m2
    simp only [ISubject.notify_observer, notify_loop_recordCall, List.nil_append]
    exact filter_calls_eq_replicate o m2 l2
  refine ⟨?_, gen⟩
  have hc : (l ++ [o] ++ [o]).count o = 2 := by
    simp [List.count_append, List.count_eq_zero_of_not_mem h]
  have := gen (l ++ [o] ++ [o]) m
  rw [hc] at this
  simpa [ISubject._register] using this

/-- Witness of C5: the observer `7` is not in `[2, 1]`. -/
theorem C5_registered_twice_is_called_twice_witness :
    7 ∉ [2, 1] ∧
    ((((ISubject.mk [2, 1])._register 7)._register 7).notify_observer recordCall "m" []).2.filter
        (fun c => decide (c.1 = 7)) = [(7, "m"), (7, "m")] :=
  ⟨by decide, (C5_registered_twice_is_called_twice [2, 1] 7 "m" (by decide)).1⟩

/-- C6: from any memory and whatever is already on `cout`, `ObserverDP::run()` writes
exactly the line `observer1: got: my notification.` and then the line
`observer2: got: my notification.`, each ended by `endl`, and nothing else. -/
theorem C6_run_writes_the_two_lines (mem : Memory) (cout : String) :
    run mem cout
      = cout ++ "observer1: got: my notification.\nobserver2: got: my notification.\n" ∧
    run mem cout
      = cout ++ endlLines ["observer1: got: my notification.", "observer2: got: my notification."] := by
  have hne : mem.next ≠ mem.next + 1 := Nat.ne_of_lt (Nat.lt_succ_self mem.next)
  simp [run, Memory.new, Subject1.new, ISubject._register, ISubject.notify_observer,
    ISubject.notify_observer.loop, Memory.update, IObserver.update, Observer1.update,
    Function.update_noteq hne, String.append_assoc, endlLines]

/-- C7: for every message `m`, `notify_observer(m)` on a subject whose list is empty
makes no `update` call whatever `update` is (what the observers act on is returned
as it was: no call recorded, nothing written to `cout`), has no error result, and
returns the subject with its list still empty. -/
theorem C7_notify_without_observers_is_noop {σ : Type}
    (update : IObserverPtr → String → σ → σ) (m : String) (w : σ)
    (calls : List (IObserverPtr × String)) (mem : Memory) (cout : String) :
    (ISubject.mk []).notify_observer update m w = (ISubject.mk [], w) ∧
      (Subject1.new.notify_observer recordCall m calls) = (Subject1.new, calls) ∧
      (Subject1.new.notify_observer mem.update m cout) = (Subject1.new, cout) := by
  simp [ISubject.notify_observer, ISubject.notify_observer.loop, Subject1.new]

/-- C9: when `o` occurs exactly `k ≥ 1` times in the observer list, a broadcast
`notify_observer(m)` after `deregister(o)` calls `o.update(m)` exactly `k - 1` times;
in particular, when `o` was registered exactly once, no call of that broadcast is on `o`. -/
theorem C9_notify_after_deregister (l : List IObserverPtr) (o : IObserverPtr) (m : String)
    (k : Nat) (hk : 1 ≤ k) (hcount : l.count o = k) :
    (((ISubject.mk l).deregister o).notify_observer recordCall m []).2.filter
        (fun c => decide (c.1 = o)) = List.replicate (k - 1) (o, m) ∧
      ((((ISubject.mk l).deregister o).notify_observer recordCall m []).2.filter
        (fun c => decide (c.1 = o))).length + 1 = k ∧
      (k = 1 →
        ∀ c ∈ (((ISubject.mk l).deregister o).notify_observer recordCall m []).2, c.1 ≠ o) := by
  have hcalls : (((ISubject.mk l).deregister o).notify_observer recordCall m []).2
      = (l.erase o).map (fun p => (p, m)) := by
    simp [ISubject.notify_observer, notify_loop_recordCall, deregister_observers]
  have hc : (l.erase o).count o = k - 1 := by
    rw [List.count_erase_self, hcount]
  rw [hcalls]
  refine ⟨?_, ?_, ?_⟩
  · rw [filter_calls_eq_replicate, hc]
  · rw [filter_calls_eq_replicate, hc, List.length_replicate]
    omega
  · intro h1 c hcmem
    have h0 : (l.erase o).count o = 0 := by rw [hc, h1]
    have hnot : o ∉ l.erase o := List.count_eq_zero.mp h0
    obtain ⟨p, hp, rfl⟩ := List.mem_map.mp hcmem
    intro e
    exact hnot (e ▸ hp)

/-- Witness of C9: the observer `1` occurs twice in `[2, 1, 3, 1]`. -/
theorem C9_notify_after_deregister_witness :
    [2, 1, 3, 1].count 1 = 2 ∧
    (((ISubject.mk [2, 1, 3, 1]).deregister 1).notify_observer recordCall "m" []).2.filter
        (fun c => decide (c.1 = 1)) = List.replicate (2 - 1) (1, "m") :=
  ⟨by decide, (C9_notify_after_deregister [2, 1, 3, 1] 1 "m" 2 (by decide) (by decide)).1⟩

/-- C10: after any sequence of `_register` and `deregister` operations on a freshly
constructed subject, the number of entries of an observer `o` in the list is the
counter of the scan of the sequence (plus one at each `_register(o)`, minus one at each
`deregister(o)` unless already zero, started at zero); so an observer that no operation
of the sequence registers is not in the list and no call of a broadcast is on it. -/
theorem C10_count_follows_the_scan (ops : List Op) (o : IObserverPtr) (m : String) :
    (applyOps Subject1.new ops).observers.count o = scanCount o ops 0 ∧
      (Op._register o ∉ ops →
        o ∉ (applyOps Subject1.new ops).observers ∧
        ∀ c ∈ ((applyOps Subject1.new ops).notify_observer recordCall m []).2, c.1 ≠ o) := by
  have hcount : (applyOps Subject1.new ops).observers.count o = scanCount o ops 0 := by
    simpa [Subject1.new] using count_applyOps o ops Subject1.new
  refine ⟨hcount, ?_⟩
  intro hnever
  have hnot : o ∉ (applyOps Subject1.new ops).observers := by
    apply List.count_eq_zero.mp
    rw [hcount, scanCount_never_registered o ops hnever]
  refine ⟨hnot, ?_⟩
  intro c hcmem
  simp only [ISubject.notify_observer, notify_loop_recordCall, List.nil_append] at hcmem
  obtain ⟨p, hp, rfl⟩ := List.mem_map.mp hcmem
  intro e
  exact hnot (e ▸ hp)

/-- Witness of C10: in the sequence register 1, register 2, deregister 1, deregister 1,
register 1 the observer `3` is never registered, and the scan for the observer `1`
ends at one. -/
theorem C10_count_follows_the_scan_witness :
    Op._register 3 ∉ [Op._register 1, Op._register 2, Op.deregister 1, Op.deregister 1,
        Op._register 1] ∧
      3 ∉ (applyOps Subject1.new [Op._register 1, Op._register 2, Op.deregister 1,
        Op.deregister 1, Op._register 1]).observers :=
  ⟨by decide,
    ((C10_count_follows_the_scan [Op._register 1, Op._register 2, Op.deregister 1,
        Op.deregister 1, Op._register 1] 3 "m").2 (by decide)).1⟩

/-- C11: for every observer list `l` and every observer `o`, `deregister(o)` leaves the
entries of the other observers untouched: the entries different from `o`, taken in
order with their repetitions, are the same before and after the call, and so are, for
every message, the calls a broadcast makes on observers other than `o`. -/
theorem C11_deregister_keeps_other_entries (l : List IObserverPtr) (o : IObserverPtr)
    (m : String) :
    ((ISubject.mk l).deregister o).observers.filter (fun p => decide (p ≠ o))
        = l.filter (fun p => decide (p ≠ o)) ∧
      (((ISubject.mk l).deregister o).notify_observer recordCall m []).2.filter
          (fun c => decide (c.1 ≠ o))
        = ((ISubject.mk l).notify_observer recordCall m []).2.filter
          (fun c => decide (c.1 ≠ o)) := by
  refine ⟨?_, ?_⟩
  · rw [deregister_observers]
    exact erase_filter_others o l
  · simp only [ISubject.notify_observer, notify_loop_recordCall, List.nil_append,
      deregister_observers, filter_calls_others, erase_filter_others]

/-- C12 as stated fails: on the list `[2, 1]`, where the observer `1` already occurs,
`_register(1)` followed by `deregister(1)` gives `[2, 1]` back, so the list is restored
although the observer did occur in it. -/
theorem C12_restored_although_present :
    1 ∈ [2, 1] ∧
      ((ISubject.mk [2, 1])._register 1).deregister 1 = ISubject.mk [2, 1] ∧
      ¬ (((ISubject.mk [2, 1])._register 1).deregister 1 = ISubject.mk [2, 1] ↔ 1 ∉ [2, 1]) := by
  decide

/-- C12 amended: `_register(o)` immediately followed by `deregister(o)` restores `l` when
`o` did not occur in `l`; when `o` already occurred in `l`, the result is `l` with its
first occurrence of `o` removed and `o` appended at the end; and the pair restores `l`
exactly when `l` is a list without `o` followed by zero or more entries of `o`. -/
theorem C12_register_then_deregister (l : List IObserverPtr) (o : IObserverPtr) :
    (o ∉ l → ((ISubject.mk l)._register o).deregister o = ISubject.mk l) ∧
      (o ∈ l → ∃ before after, l = before ++ o :: after ∧ o ∉ before ∧
        (((ISubject.mk l)._register o).deregister o).observers = before ++ after ++ [o]) ∧
      (((ISubject.mk l)._register o).deregister o = ISubject.mk l ↔
        ∃ before n, o ∉ before ∧ l = before ++ List.replicate n o) := by
  have hobs := register_deregister_observers l o
  have habsent : o ∉ l → ((ISubject.mk l)._register o).deregister o = ISubject.mk l := by
    intro h
    rw [deregister_eq]
    simp [ISubject._register, List.erase_append_right _ h]
  have hpresent : o ∈ l → ∃ before after, l = before ++ o :: after ∧ o ∉ before ∧
      (((ISubject.mk l)._register o).deregister o).observers = before ++ after ++ [o] := by
    intro h
    obtain ⟨before, after, hl, hnot⟩ := exists_first_occurrence l o h
    refine ⟨before, after, hl, hnot, ?_⟩
    rw [hobs, hl, List.append_assoc, List.erase_append_right _ hnot]
    simp
  refine ⟨habsent, hpresent, ?_⟩
  constructor
  · intro hres
    by_cases h : o ∈ l
    · obtain ⟨before, after, hl, hnot, hval⟩ := hpresent h
      have hlist : before ++ after ++ [o] = before ++ o :: after := by
        rw [← hval, hres, hl]
      rw [List.append_assoc] at hlist
      have hafter := (append_singleton_eq_cons_iff o after).mp (List.append_cancel_left hlist)
      refine ⟨before, after.length + 1, hnot, ?_⟩
      rw [hl, List.replicate_succ, ← hafter]
    · exact ⟨l, 0, h, by simp⟩
  · rintro ⟨before, n, hnot, hl⟩
    rw [deregister_eq]
    congr 1
    have : (ISubject.mk l)._register o = ISubject.mk (l ++ [o]) := rfl
    rw [this, hl, List.append_assoc, List.erase_append_right _ hnot]
    have hrep : List.replicate n o ++ [o] = o :: List.replicate n o := by
      rw [append_singleton_eq_cons_iff]
      simp
    rw [hrep]
    simp

/-- Witness of C12 amended: on `[1, 2]` the observer `1` occurs, and on `[2, 3]` it does
not. -/
theorem C12_register_then_deregister_witness :
    (1 ∈ [1, 2] ∧ ∃ before after, [1, 2] = before ++ 1 :: after ∧ 1 ∉ before ∧
        (((ISubject.mk [1, 2])._register 1).deregister 1).observers = before ++ after ++ [1]) ∧
      (1 ∉ [2, 3] ∧ ((ISubject.mk [2, 3])._register 1).deregister 1 = ISubject.mk [2, 3]) :=
  ⟨⟨by decide, (C12_register_then_deregister [1, 2] 1).2.1 (by decide)⟩,
    ⟨by decide, (C12_register_then_deregister [2, 3] 1).1 (by decide)⟩⟩

/-- C13: for every subject, every message `m` and every `update` (one that acts on
what the observers own and not on the subject, as `Observer1::update` and
`Observer2::update` do), `notify_observer(m)` returns the subject with the observer
list it had; hence a second broadcast right after the first calls the same observers
in the same order, namely the entries of the list. -/
theorem C13_notify_keeps_the_list {σ : Type} (update : IObserverPtr → String → σ → σ)
    (self : ISubject) (m m2 : String) (w : σ) (mem : Memory) (cout : String) :
    (self.notify_observer update m w).1.observers = self.observers ∧
      (self.notify_observer mem.update m cout).1.observers = self.observers ∧
      ((self.notify_observer recordCall m []).1.notify_observer recordCall m2 []).2.map Prod.fst
        = (self.notify_observer recordCall m []).2.map Prod.fst ∧
      (self.notify_observer recordCall m []).2.map Prod.fst = self.observers := by
  refine ⟨rfl, rfl, ?_, ?_⟩
  · simp [ISubject.notify_observer, notify_loop_recordCall, Function.comp_def]
  · simp [ISubject.notify_observer, notify_loop_recordCall, Function.comp_def]

/-- C14: for every observer list `l` and every two observers `a` and `b`,
`deregister(a)` followed by `deregister(b)` yields the same list as `deregister(b)`
followed by `deregister(a)`. -/
theorem C14_deregister_commutes (l : List IObserverPtr) (a b : IObserverPtr) :
    ((ISubject.mk l).deregister a).deregister b
      = ((ISubject.mk l).deregister b).deregister a := by
  simp only [deregister_eq]
  rw [List.erase_comm]

end ObserverDP
